import Mathlib

/-!
Verification of the incremental SSH authentication-log pipeline of
`authlog_collector_agents.py` (classes `SSHLogExtractorAgent` and
`PrivateKeyDupAgent`).

Files are modelled as `Option (List String)`: `none` is an absent file, and
`some lines` holds the stored lines (each stored line is the text written
between two newlines; Python's per-line iteration plus `.strip()` is modelled
by applying `pyStrip` to each stored line when a reader loads the file).
-/

namespace Authlog

/-- Python `str.strip()` whitespace characters (the ASCII ones; the log data
handled by the program is ASCII). -/
def isPySpace (c : Char) : Bool :=
  c = ' ' || c = '\t' || c = '\n' || c = '\x0d' || c = '\x0b' || c = '\x0c'

/-- `str.strip()` on a character list: drop leading and trailing whitespace. -/
def pyStripL (l : List Char) : List Char :=
  ((l.dropWhile isPySpace).reverse.dropWhile isPySpace).reverse

/-- Python `str.strip()` (no argument form). -/
def pyStrip (s : String) : String :=
  ⟨pyStripL s.data⟩

/-- `startsL pat l` : does `l` start with `pat`?  (Python `str.startswith`,
used to model literal parts of the regular expression). -/
def startsL : List Char → List Char → Bool
  | [], _ => true
  | _ :: _, [] => false
  | p :: ps, c :: cs => p = c && startsL ps cs

/-- `subL pat l` : does `pat` occur as a contiguous substring of `l`?
Models Python's `pat in line` on strings. -/
def subL (pat : List Char) : List Char → Bool
  | [] => startsL pat []
  | c :: cs => startsL pat (c :: cs) || subL pat cs

/-- `"sshd" in line` — the filter used by `extract_new_ssh_entries`. -/
def containsSshd (s : String) : Bool :=
  subL "sshd".data s.data

/-- A structured SSH authentication event: the four capture groups of the
`key_pattern` regular expression of `PrivateKeyDupAgent.find_dups`. -/
structure SSHEvent where
  ts : String
  user : String
  src : String
  fp : String
deriving DecidableEq

/-- `\d` of the pattern. -/
def isDigitC (c : Char) : Bool := '0' ≤ c && c ≤ '9'

/-- `[A-Za-z0-9+/=]` — the fingerprint body character class of the pattern. -/
def isB64 (c : Char) : Bool :=
  ('A' ≤ c && c ≤ 'Z') || ('a' ≤ c && c ≤ 'z') || ('0' ≤ c && c ≤ '9') ||
    c = '+' || c = '/' || c = '='

/-- `dropPre pat l` : if `l = pat ++ r`, return `some r`, else `none`
(consume a literal of the regular expression). -/
def dropPre : List Char → List Char → Option (List Char)
  | [], l => some l
  | _ :: _, [] => none
  | p :: ps, c :: cs => if p = c then dropPre ps cs else none

/-!
`PrivateKeyDupAgent.find_dups`'s compiled pattern applied to one line:

  `^(?P<ts>\S+)\s+\S+\s+sshd\[\d+\]: Accepted publickey for (?P<user>\S+)
   from (?P<src>[^ ]+) port \d+ ssh2: \S+ (?P<fp>SHA256:[A-Za-z0-9+/=]+)`

with `re.search`.  The `^` anchor (no MULTILINE flag) restricts the search to
position 0.  Every quantified group in this pattern is followed either by a
character class disjoint from the group's class (`\S+` before `\s+` or a
literal space, `\s+` before a non-space literal, `\d+` before `]` or a space,
`[^ ]+` before a space), or by nothing that constrains it (the final
fingerprint body), so greedy matching never backtracks and the regular
expression is equivalent to the deterministic longest-token scan
`keyPatternMatch` below, built from one helper per pattern segment.
-/

/-- `(?P<fp>SHA256:[A-Za-z0-9+/=]+)` — the captured fingerprint. -/
def fpPart (r15 : List Char) : Option (List Char) :=
  match dropPre "SHA256:".data r15 with
  | none => none
  | some r16 =>
    if (r16.takeWhile isB64).isEmpty then none
    else some ("SHA256:".data ++ r16.takeWhile isB64)

/-- `\S+ (?P<fp>...)` — the discarded key-type token, one space, fingerprint. -/
def algFpPart (r13 : List Char) : Option (List Char) :=
  if (r13.takeWhile (fun c => !isPySpace c)).isEmpty then none else
  match dropPre " ".data (r13.dropWhile (fun c => !isPySpace c)) with
  | none => none
  | some r15 => fpPart r15

/-- ` port \d+ ssh2: \S+ (?P<fp>...)`. -/
def portPart (r10 : List Char) : Option (List Char) :=
  match dropPre " port ".data r10 with
  | none => none
  | some r11 =>
    if (r11.takeWhile isDigitC).isEmpty then none else
    match dropPre " ssh2: ".data (r11.dropWhile isDigitC) with
    | none => none
    | some r13 => algFpPart r13

/-- `(?P<src>[^ ]+) port ...` — returns the captured source and fingerprint. -/
def srcPart (r9 : List Char) : Option (List Char × List Char) :=
  if (r9.takeWhile (fun c => !(c = ' '))).isEmpty then none else
  match portPart (r9.dropWhile (fun c => !(c = ' '))) with
  | none => none
  | some fp => some (r9.takeWhile (fun c => !(c = ' ')), fp)

/-- `(?P<user>\S+) from (?P<src>...) ...` — returns user, source, fingerprint. -/
def userPart (r7 : List Char) : Option (List Char × List Char × List Char) :=
  if (r7.takeWhile (fun c => !isPySpace c)).isEmpty then none else
  match dropPre " from ".data (r7.dropWhile (fun c => !isPySpace c)) with
  | none => none
  | some r9 =>
    match srcPart r9 with
    | none => none
    | some sf => some (r7.takeWhile (fun c => !isPySpace c), sf.1, sf.2)

/-- `sshd\[\d+\]: Accepted publickey for ...` — from the daemon tag on. -/
def sshdPart (r4 : List Char) : Option (List Char × List Char × List Char) :=
  match dropPre "sshd[".data r4 with
  | none => none
  | some r5 =>
    if (r5.takeWhile isDigitC).isEmpty then none else
    match dropPre "]: Accepted publickey for ".data (r5.dropWhile isDigitC) with
    | none => none
    | some r7 => userPart r7

/-- `^(?P<ts>\S+)\s+\S+\s+sshd\[...` — the whole pattern: timestamp token,
whitespace, host token, whitespace, then the daemon tag and the rest. -/
def keyPatternMatch (l : List Char) : Option SSHEvent :=
  if (l.takeWhile (fun c => !isPySpace c)).isEmpty then none else
  if ((l.dropWhile (fun c => !isPySpace c)).takeWhile isPySpace).isEmpty then none else
  if (((l.dropWhile (fun c => !isPySpace c)).dropWhile isPySpace).takeWhile
      (fun c => !isPySpace c)).isEmpty then none else
  if ((((l.dropWhile (fun c => !isPySpace c)).dropWhile isPySpace).dropWhile
      (fun c => !isPySpace c)).takeWhile isPySpace).isEmpty then none else
  match sshdPart ((((l.dropWhile (fun c => !isPySpace c)).dropWhile
      isPySpace).dropWhile (fun c => !isPySpace c)).dropWhile isPySpace) with
  | none => none
  | some usf =>
    some ⟨⟨l.takeWhile (fun c => !isPySpace c)⟩, ⟨usf.1⟩, ⟨usf.2.1⟩, ⟨usf.2.2⟩⟩

example :
    keyPatternMatch "2025-01-01T00:00:00 alpha sshd[1]: Accepted publickey for jdoe from 10.0.0.1 port 22 ssh2: ED25519 SHA256:AAA".data =
      some ⟨"2025-01-01T00:00:00", "jdoe", "10.0.0.1", "SHA256:AAA"⟩ := by
  decide

example :
    keyPatternMatch "h sshd[1]: Failed password for root from 1.2.3.4 port 22 ssh2".data = none := by
  decide

example :
    keyPatternMatch "T1 h sshd[1]: Accepted publickey for u from \t9.9.9.9 port 22 ssh2: X SHA256:k".data =
      some ⟨"T1", "u", "\t9.9.9.9", "SHA256:k"⟩ := by
  decide

example :
    keyPatternMatch "2025-06-27T18:05:53 host sshd[296384]: Accepted publickey for jay from 127.0.0.1 port 41420 ssh2: ED25519 MD5:70DIz9llHmJm".data = none := by
  decide

example : pyStrip "  a sshd  " = "a sshd" := by decide

example : containsSshd "h sshd[1]: x" = true := by decide

/-! ## The extractor (`SSHLogExtractorAgent`) -/

/-- The mutable state of `SSHLogExtractorAgent` during `extract_new_ssh_entries`:
`seen_auth_entries`, `seen_ssh_entries` and the batch `new_ssh_entries`.
Python sets are modelled as lists used through membership; `newSsh` records
the batch in insertion order (the program only ever uses it as a set:
it is rendered through `sorted(...)` and `len(...)`). -/
structure ExtractState where
  seenAuth : List String
  seenSsh : List String
  newSsh : List String
deriving DecidableEq

/-- `if line not in self.seen_auth_entries: self.seen_auth_entries.add(line)`. -/
def seenAuthAdd (sa : List String) (line : String) : List String :=
  if line ∈ sa then sa else sa ++ [line]

/-- The body of the line loop of `extract_new_ssh_entries`:

    line = line.strip()
    if line not in self.seen_auth_entries: self.seen_auth_entries.add(line)
    if "sshd" in line and line not in self.seen_ssh_entries:
        new_ssh_entries.add(line); self.seen_ssh_entries.add(line)
-/
def processLine (st : ExtractState) (raw : String) : ExtractState :=
  if containsSshd (pyStrip raw) = true ∧ pyStrip raw ∉ st.seenSsh then
    ⟨seenAuthAdd st.seenAuth (pyStrip raw), st.seenSsh ++ [pyStrip raw],
      st.newSsh ++ [pyStrip raw]⟩
  else
    ⟨seenAuthAdd st.seenAuth (pyStrip raw), st.seenSsh, st.newSsh⟩

/-- The input directory: the lines of each `*_auth.log.*` file, in the order
`glob` lists the files.  The agent iterates file by file, line by line, which
is iteration over the concatenation. -/
def allLines (files : List (List String)) : List String := files.flatten

/-- File contents on disk: `none` = absent. `loadContent` is a reader that
treats an absent file as empty. -/
def loadContent (o : Option (List String)) : List String := o.getD []

/-- The two durable stores. -/
structure FS where
  sshLog : Option (List String)
  dups : Option (List String)
deriving DecidableEq

/-- The state `SSHLogExtractorAgent.__init__` / `_load_seen_entries` builds:
`seen_ssh_entries` from the (created-if-absent) `ssh_log`, `seen_auth_entries`
from every `*_auth.log.*` file, each line stripped. -/
def initState (files : List (List String)) (fs : FS) : ExtractState :=
  ⟨(allLines files).map pyStrip, (loadContent fs.sshLog).map pyStrip, []⟩

/-- `extract_new_ssh_entries`: run the line loop over the whole directory and
return the batch (the code's `new_ssh_entries` set). -/
def extractBatch (files : List (List String)) (fs : FS) : List String :=
  ((allLines files).foldl processLine (initState files fs)).newSsh

/-- Python string `<=`: lexicographic by code point, a proper prefix compares
smaller. -/
def leChars : List Char → List Char → Bool
  | [], _ => true
  | _ :: _, [] => false
  | a :: as, b :: bs =>
    if a.toNat < b.toNat then true
    else if b.toNat < a.toNat then false
    else leChars as bs

def strLe (a b : String) : Bool := leChars a.data b.data

/-- `sorted(...)` insertion step. -/
def insSorted (x : String) : List String → List String
  | [] => [x]
  | y :: ys => if strLe x y then x :: y :: ys else y :: insSorted x ys

/-- Python `sorted` on strings: ascending sort in the code-point lexicographic
order (the batches it is applied to are duplicate-free, so any sort that is
ascending in this total order produces the same list Python produces). -/
def sortStr (l : List String) : List String := l.foldr insSorted []

/-- One extractor run (`_load_seen_entries`, `extract_new_ssh_entries`,
`update_ssh_log`, and the reported `len(new_ssh_entries)`):
`ssh_log` is created empty if absent, then the sorted batch is appended. -/
def runExtract (files : List (List String)) (fs : FS) : FS × Nat :=
  let content := loadContent fs.sshLog
  let batch := extractBatch files fs
  (⟨some (content ++ sortStr batch), fs.dups⟩, batch.length)

/-! ## The detector (`PrivateKeyDupAgent`) -/

/-- `log_dups`'s record line: `f"\x7bs[0]\x7d,\x7bs[1]\x7d,\x7bs[2]\x7d,\x7bfingerprint\x7d"`. -/
def fmtDup (e : SSHEvent) : String :=
  e.src ++ "," ++ e.user ++ "," ++ e.ts ++ "," ++ e.fp

/-- `find_dups`: parse every (stripped) line of `ssh_log` with `key_pattern`;
unmatched lines are dropped.  The events listed here, keyed by `fp`, are
exactly the `fingerprint_to_sources` mapping (Python dedups the
`(source, user, ts)` triples with a set; the list may repeat an event, which
changes no membership, no distinct-source count and no emitted record). -/
def eventsOf (sshLines : List String) : List SSHEvent :=
  sshLines.filterMap (fun l => keyPatternMatch (pyStrip l).data)

/-- The distinct source addresses observed for fingerprint `fp`
(`set(s[0] for s in sources)` in `log_dups`). -/
def srcsOf (evs : List SSHEvent) (fp : String) : List String :=
  ((evs.filter (fun e => e.fp = fp)).map (fun e => e.src)).dedup

/-- The `new_dups` set of `log_dups`: one record per event whose fingerprint
was used from more than one distinct source, except records whose line is
already in `dup_lines` (the store's lines as loaded — stripped — by
`_load_existing_dups`). -/
def newDupsList (evs : List SSHEvent) (dupLines : List String) : List String :=
  ((evs.filter
      (fun e => decide (2 ≤ (srcsOf evs e.fp).length ∧ fmtDup e ∉ dupLines))).map
    fmtDup).dedup

/-- One detector run (`__init__`/`_load_existing_dups`, `find_dups`,
`log_dups`, and the reported `len(new_dups)`).  `find_dups` opens `ssh_log`
for reading with no existence check, so an absent `ssh_log` raises
`FileNotFoundError` — modelled as `none`.  An absent `private_key_dups` is
treated as empty but is only created when a nonempty batch is appended
(`open(..., "a")`). -/
def runDetect (fs : FS) : Option (FS × Nat) :=
  match fs.sshLog with
  | none => none
  | some sshLines =>
    let dupLines := (loadContent fs.dups).map pyStrip
    let nd := newDupsList (eventsOf sshLines) dupLines
    let dups' := if nd.isEmpty then fs.dups else some (loadContent fs.dups ++ sortStr nd)
    some (⟨fs.sshLog, dups'⟩, nd.length)

/-- The full pipeline of `main()`: extraction, then detection, with the two
reported counts. -/
def runPipeline (files : List (List String)) (fs : FS) : Option (FS × Nat × Nat) :=
  let er := runExtract files fs
  match runDetect er.1 with
  | none => none
  | some (fs2, c2) => some (fs2, er.2, c2)

/-- Scenario A input lines (spec §8). -/
def lineAlpha : String :=
  "2025-01-01T00:00:00 alpha sshd[1]: Accepted publickey for jdoe from 10.0.0.1 port 22 ssh2: ED25519 SHA256:AAA"

def lineBeta : String :=
  "2025-01-01T00:01:00 beta sshd[2]: Accepted publickey for jdoe from 10.0.0.2 port 22 ssh2: ED25519 SHA256:AAA"

/-! ## Lemmas about `pyStrip` -/

theorem dropWhile_self_eq (p : Char → Bool) :
    ∀ l : List Char, (l.dropWhile p).dropWhile p = l.dropWhile p := by
  intro l
  induction l with
  | nil => rfl
  | cons c cs ih =>
    by_cases h : p c = true
    · simp [List.dropWhile_cons, h, ih]
    · simp [List.dropWhile_cons, h]

theorem dropWhile_head_false (p : Char → Bool) :
    ∀ (l : List Char) (c : Char) (cs : List Char),
      l.dropWhile p = c :: cs → p c = false := by
  intro l
  induction l with
  | nil => intro c cs h; cases h
  | cons a as ih =>
    intro c cs h
    by_cases ha : p a = true
    · rw [List.dropWhile_cons, if_pos ha] at h
      exact ih c cs h
    · rw [List.dropWhile_cons, if_neg ha] at h
      cases h
      simpa using ha

theorem dropWhile_append_last (p : Char → Bool) (y : List Char) (c : Char)
    (hc : p c = false) : (y ++ [c]).dropWhile p = y.dropWhile p ++ [c] := by
  rw [List.dropWhile_append]
  by_cases h : (y.dropWhile p).isEmpty
  · simp [h, List.dropWhile_cons, hc, List.isEmpty_iff.mp h]
  · simp [h]

theorem pyStripL_idem (l : List Char) : pyStripL (pyStripL l) = pyStripL l := by
  unfold pyStripL
  cases hA : l.dropWhile isPySpace with
  | nil => simp
  | cons c cs =>
    have hc : isPySpace c = false := dropWhile_head_false _ _ _ _ hA
    have hrev : (c :: cs).reverse = cs.reverse ++ [c] := by simp
    have h1 : ((c :: cs).reverse.dropWhile isPySpace).reverse
        = c :: (cs.reverse.dropWhile isPySpace).reverse := by
      rw [hrev, dropWhile_append_last _ _ _ hc]; simp
    rw [h1]
    have h2 : (c :: (cs.reverse.dropWhile isPySpace).reverse).dropWhile isPySpace
        = c :: (cs.reverse.dropWhile isPySpace).reverse := by
      rw [List.dropWhile_cons, if_neg (by simp [hc])]
    rw [h2, ← h1]
    rw [List.reverse_reverse, dropWhile_self_eq]

theorem pyStrip_idem (s : String) : pyStrip (pyStrip s) = pyStrip s := by
  show String.mk (pyStripL (pyStripL s.data)) = pyStrip s
  rw [pyStripL_idem]
  rfl

/-! ## Lemmas about `startsL`, `subL`, `dropPre` -/

theorem startsL_self_append (p r : List Char) : startsL p (p ++ r) = true := by
  induction p with
  | nil => rfl
  | cons c cs ih => simp [startsL, ih]

theorem subL_of_append (pat x y : List Char) : subL pat (x ++ (pat ++ y)) = true := by
  induction x with
  | nil =>
    rw [List.nil_append]
    cases hp : pat ++ y with
    | nil =>
      have hpat : pat = [] := (List.append_eq_nil.mp hp).1
      rw [hpat]; rfl
    | cons c cs =>
      have h1 : startsL pat (c :: cs) = true := by
        rw [← hp]; exact startsL_self_append pat y
      rw [subL, h1, Bool.true_or]
  | cons a as ih =>
    rw [List.cons_append, subL, ih, Bool.or_true]

theorem dropPre_eq (pat : List Char) :
    ∀ l r, dropPre pat l = some r → l = pat ++ r := by
  induction pat with
  | nil => intro l r h; cases h; rfl
  | cons p ps ih =>
    intro l r h
    cases l with
    | nil => cases h
    | cons c cs =>
      rw [dropPre] at h
      by_cases hpc : p = c
      · rw [if_pos hpc] at h
        have := ih cs r h
        simp [hpc, this]
      · rw [if_neg hpc] at h
        cases h

/-! ## Inversion of `keyPatternMatch` -/

/-- What the pattern guarantees about a captured fingerprint. -/
def FpWellFormed (f : List Char) : Prop :=
  ∃ body, f = "SHA256:".data ++ body ∧ body ≠ [] ∧ ∀ c ∈ body, isB64 c = true

theorem fpPart_wf {r15 f : List Char} (h : fpPart r15 = some f) :
    FpWellFormed f := by
  unfold fpPart at h
  split at h
  · cases h
  next r16 heq =>
    split at h
    next hemp => cases h
    next hemp =>
      cases h
      exact ⟨r16.takeWhile isB64, rfl, by simpa using hemp,
        fun c hc => List.mem_takeWhile_imp hc⟩

theorem algFpPart_wf {r13 f : List Char} (h : algFpPart r13 = some f) :
    FpWellFormed f := by
  unfold algFpPart at h
  split at h
  · cases h
  split at h
  · cases h
  next r15 _ => exact fpPart_wf h

theorem portPart_wf {r10 f : List Char} (h : portPart r10 = some f) :
    FpWellFormed f := by
  unfold portPart at h
  split at h
  · cases h
  next r11 _ =>
    split at h
    · cases h
    split at h
    · cases h
    next r13 _ => exact algFpPart_wf h

theorem srcPart_wf {r9 : List Char} {sf : List Char × List Char}
    (h : srcPart r9 = some sf) : FpWellFormed sf.2 := by
  unfold srcPart at h
  split at h
  · cases h
  split at h
  · cases h
  next f hport =>
    cases h
    exact portPart_wf hport

theorem userPart_wf {r7 : List Char} {usf : List Char × List Char × List Char}
    (h : userPart r7 = some usf) : FpWellFormed usf.2.2 := by
  unfold userPart at h
  split at h
  · cases h
  split at h
  · cases h
  next r9 _ =>
    split at h
    · cases h
    next sf hsrc =>
      cases h
      exact srcPart_wf hsrc

theorem sshdPart_shape {r4 : List Char} {usf : List Char × List Char × List Char}
    (h : sshdPart r4 = some usf) :
    (∃ r5, r4 = "sshd[".data ++ r5) ∧ FpWellFormed usf.2.2 := by
  unfold sshdPart at h
  split at h
  · cases h
  next r5 hdrop =>
    split at h
    · cases h
    split at h
    · cases h
    next r7 _ =>
      exact ⟨⟨r5, dropPre_eq _ _ _ hdrop⟩, userPart_wf h⟩

/-- Structure forced on any line accepted by the pattern, and on the event it
produces: the line contains the literal `sshd` (inside `sshd[`), and the
captured fingerprint is `SHA256:` followed by a nonempty run of
base64-class characters. -/
theorem keyPatternMatch_shape {l : List Char} {e : SSHEvent}
    (h : keyPatternMatch l = some e) :
    (∃ x y, l = x ++ ("sshd".data ++ y)) ∧ FpWellFormed e.fp.data := by
  unfold keyPatternMatch at h
  split at h
  · cases h
  split at h
  · cases h
  split at h
  · cases h
  split at h
  · cases h
  split at h
  · cases h
  next usf hsshd =>
    cases h
    obtain ⟨⟨r5, hr4⟩, hfp⟩ := sshdPart_shape hsshd
    refine ⟨⟨l.takeWhile (fun c => !isPySpace c) ++
        ((l.dropWhile (fun c => !isPySpace c)).takeWhile isPySpace ++
          (((l.dropWhile (fun c => !isPySpace c)).dropWhile isPySpace).takeWhile
              (fun c => !isPySpace c) ++
            ((((l.dropWhile (fun c => !isPySpace c)).dropWhile
                isPySpace).dropWhile (fun c => !isPySpace c)).takeWhile
              isPySpace))), '[' :: r5, ?_⟩, hfp⟩
    show l = _ ++ ("sshd[".data ++ r5)
    conv_lhs => rw [← List.takeWhile_append_dropWhile (fun c => !isPySpace c) l]
    conv_lhs =>
      rw [← List.takeWhile_append_dropWhile isPySpace
            (l.dropWhile (fun c => !isPySpace c))]
    conv_lhs =>
      rw [← List.takeWhile_append_dropWhile (fun c => !isPySpace c)
            ((l.dropWhile (fun c => !isPySpace c)).dropWhile isPySpace)]
    conv_lhs =>
      rw [← List.takeWhile_append_dropWhile isPySpace
            (((l.dropWhile (fun c => !isPySpace c)).dropWhile
                isPySpace).dropWhile (fun c => !isPySpace c))]
    rw [hr4]
    simp [List.append_assoc]

/-- A line accepted by the pattern contains the daemon marker `sshd`. -/
theorem keyPatternMatch_containsSshd {l : List Char} {e : SSHEvent}
    (h : keyPatternMatch l = some e) : containsSshd ⟨l⟩ = true := by
  obtain ⟨⟨x, y, hl⟩, -⟩ := keyPatternMatch_shape h
  show subL "sshd".data l = true
  rw [hl]
  exact subL_of_append _ _ _

/-- A captured fingerprint starts with `SHA256:` and contains no comma. -/
theorem keyPatternMatch_fp {l : List Char} {e : SSHEvent}
    (h : keyPatternMatch l = some e) :
    startsL "SHA256:".data e.fp.data = true ∧ ',' ∉ e.fp.data := by
  obtain ⟨-, body, hfp, -, hb64⟩ := keyPatternMatch_shape h
  constructor
  · rw [hfp]; exact startsL_self_append _ _
  · rw [hfp]
    intro hmem
    rcases List.mem_append.mp hmem with hin | hin
    · simp only [show "SHA256:".data = ['S','H','A','2','5','6',':'] from rfl] at hin
      simp at hin
    · have := hb64 ',' hin
      simp [isB64] at this

/-! ## Sorting lemmas -/

theorem mem_insSorted (x y : String) :
    ∀ l : List String, (y ∈ insSorted x l ↔ y = x ∨ y ∈ l) := by
  intro l
  induction l with
  | nil => simp [insSorted]
  | cons z zs ih =>
    by_cases h : strLe x z = true
    · simp [insSorted, h, List.mem_cons]
      try tauto
    · simp [insSorted, h, List.mem_cons, ih]
      try tauto

theorem mem_sortStr (y : String) : ∀ l : List String, (y ∈ sortStr l ↔ y ∈ l) := by
  intro l
  induction l with
  | nil => simp [sortStr]
  | cons z zs ih =>
    show y ∈ insSorted z (sortStr zs) ↔ _
    rw [mem_insSorted, ih]
    simp [List.mem_cons]

theorem leChars_total : ∀ a b : List Char, leChars a b = true ∨ leChars b a = true := by
  intro a
  induction a with
  | nil => intro b; left; rfl
  | cons x xs ih =>
    intro b
    cases b with
    | nil => right; rfl
    | cons y ys =>
      by_cases h1 : x.toNat < y.toNat
      · left; simp [leChars, h1]
      · by_cases h2 : y.toNat < x.toNat
        · right; simp [leChars, h2]
        · rcases ih ys with h | h
          · left; simp [leChars, h1, h2, h]
          · right; simp [leChars, h1, h2, h]

theorem strLe_total (a b : String) : strLe a b = true ∨ strLe b a = true :=
  leChars_total a.data b.data

theorem chain'_insSorted (x : String) :
    ∀ l : List String, l.Chain' (fun a b => strLe a b = true) →
      (insSorted x l).Chain' (fun a b => strLe a b = true) := by
  intro l
  induction l with
  | nil => intro _; simp [insSorted]
  | cons y ys ih =>
    intro h
    by_cases hxy : strLe x y = true
    · simp only [insSorted, if_pos hxy]
      exact List.chain'_cons.mpr ⟨hxy, h⟩
    · simp only [insSorted, if_neg hxy]
      have hyx : strLe y x = true := (strLe_total x y).resolve_left hxy
      have ihy := ih h.tail
      cases ys with
      | nil =>
        simp only [insSorted]
        exact List.chain'_cons.mpr ⟨hyx, List.chain'_singleton x⟩
      | cons z zs =>
        have hyz : strLe y z = true := (List.chain'_cons.mp h).1
        by_cases hxz : strLe x z = true
        · simp only [insSorted, if_pos hxz] at ihy ⊢
          exact List.chain'_cons.mpr ⟨hyx, ihy⟩
        · simp only [insSorted, if_neg hxz] at ihy ⊢
          exact List.chain'_cons.mpr ⟨hyz, ihy⟩

/-- `sorted(...)` output is ascending. -/
theorem chain'_sortStr :
    ∀ l : List String, (sortStr l).Chain' (fun a b => strLe a b = true) := by
  intro l
  induction l with
  | nil => simp [sortStr]
  | cons z zs ih => exact chain'_insSorted z (sortStr zs) ih

/-! ## Extraction-loop invariants -/

theorem foldProcess_spec :
    ∀ (lines : List String) (st : ExtractState),
      ∃ d : List String,
        (lines.foldl processLine st).seenSsh = st.seenSsh ++ d ∧
        (lines.foldl processLine st).newSsh = st.newSsh ++ d ∧
        (∀ x ∈ d, containsSshd x = true ∧ pyStrip x = x ∧ x ∉ st.seenSsh ∧
          ∃ raw ∈ lines, pyStrip raw = x) ∧
        (∀ raw ∈ lines, containsSshd (pyStrip raw) = true →
          pyStrip raw ∈ st.seenSsh ++ d) := by
  intro lines
  induction lines with
  | nil =>
    intro st
    exact ⟨[], by simp, by simp, by simp, by simp⟩
  | cons raw rest ih =>
    intro st
    obtain ⟨d, h1, h2, h3, h4⟩ := ih (processLine st raw)
    by_cases hc : containsSshd (pyStrip raw) = true ∧ pyStrip raw ∉ st.seenSsh
    · have hsA : (processLine st raw).seenSsh = st.seenSsh ++ [pyStrip raw] := by
        simp only [processLine, if_pos hc]
      have hsB : (processLine st raw).newSsh = st.newSsh ++ [pyStrip raw] := by
        simp only [processLine, if_pos hc]
      refine ⟨pyStrip raw :: d, ?_, ?_, ?_, ?_⟩
      · rw [List.foldl_cons, h1, hsA, List.append_assoc]
        rfl
      · rw [List.foldl_cons, h2, hsB, List.append_assoc]
        rfl
      · intro x hx
        rcases List.mem_cons.mp hx with hx | hx
        · subst hx
          exact ⟨hc.1, pyStrip_idem raw, hc.2,
            raw, List.mem_cons_self raw rest, rfl⟩
        · obtain ⟨hc1, hc2, hc3, r, hr, hrs⟩ := h3 x hx
          refine ⟨hc1, hc2, fun hmem => hc3 ?_, r, List.mem_cons_of_mem raw hr, hrs⟩
          rw [hsA]
          exact List.mem_append_left _ hmem
      · intro raw2 hmem hcs
        rcases List.mem_cons.mp hmem with hmem | hmem
        · subst hmem
          exact List.mem_append_right _ (List.mem_cons_self _ _)
        · have := h4 raw2 hmem hcs
          rw [hsA, List.append_assoc] at this
          simpa using this
    · have hsA : (processLine st raw).seenSsh = st.seenSsh := by
        simp only [processLine, if_neg hc]
      have hsB : (processLine st raw).newSsh = st.newSsh := by
        simp only [processLine, if_neg hc]
      refine ⟨d, ?_, ?_, ?_, ?_⟩
      · rw [List.foldl_cons, h1, hsA]
      · rw [List.foldl_cons, h2, hsB]
      · intro x hx
        obtain ⟨hc1, hc2, hc3, r, hr, hrs⟩ := h3 x hx
        exact ⟨hc1, hc2, fun hmem => hc3 (hsA ▸ hmem),
          r, List.mem_cons_of_mem raw hr, hrs⟩
      · intro raw2 hmem hcs
        rcases List.mem_cons.mp hmem with hmem | hmem
        · subst hmem
          have : pyStrip raw2 ∈ st.seenSsh := by
            by_contra hno
            exact hc ⟨hcs, hno⟩
          exact List.mem_append_left _ this
        · have := h4 raw2 hmem hcs
          rwa [hsA] at this

theorem foldProcess_seenAuth :
    ∀ (lines : List String) (st : ExtractState),
      ∃ d : List String, (lines.foldl processLine st).seenAuth = st.seenAuth ++ d := by
  intro lines
  induction lines with
  | nil => intro st; exact ⟨[], by simp⟩
  | cons raw rest ih =>
    intro st
    obtain ⟨d, hd⟩ := ih (processLine st raw)
    have hstep : ∃ d0, (processLine st raw).seenAuth = st.seenAuth ++ d0 := by
      by_cases hc : containsSshd (pyStrip raw) = true ∧ pyStrip raw ∉ st.seenSsh <;>
        [simp only [processLine, if_pos hc]; simp only [processLine, if_neg hc]] <;>
        · unfold seenAuthAdd
          by_cases hm : pyStrip raw ∈ st.seenAuth
          · exact ⟨[], by simp [hm]⟩
          · exact ⟨[pyStrip raw], by simp [hm]⟩
    obtain ⟨d0, hd0⟩ := hstep
    exact ⟨d0 ++ d, by rw [List.foldl_cons, hd, hd0, List.append_assoc]⟩

/-- Characterization of one extraction run's batch: every batch line carries
the marker, is strip-fixed, was not yet in the event store, and comes from an
input line; and every marker-carrying input line is afterwards in the store
image or the batch. -/
theorem extractBatch_spec (files : List (List String)) (fs : FS) :
    (∀ x ∈ extractBatch files fs, containsSshd x = true ∧ pyStrip x = x ∧
      x ∉ (loadContent fs.sshLog).map pyStrip ∧
      ∃ raw ∈ allLines files, pyStrip raw = x) ∧
    (∀ raw ∈ allLines files, containsSshd (pyStrip raw) = true →
      pyStrip raw ∈ (loadContent fs.sshLog).map pyStrip ++ extractBatch files fs) := by
  obtain ⟨d, h1, h2, h3, h4⟩ := foldProcess_spec (allLines files) (initState files fs)
  have hb : extractBatch files fs = d := by
    show ((allLines files).foldl processLine (initState files fs)).newSsh = d
    rw [h2]
    rfl
  rw [hb]
  exact ⟨h3, h4⟩

/-- If every marker-carrying input line is already in the event store, the
batch is empty. -/
theorem extractBatch_nil {files : List (List String)} {fs : FS}
    (h : ∀ raw ∈ allLines files, containsSshd (pyStrip raw) = true →
      pyStrip raw ∈ (loadContent fs.sshLog).map pyStrip) :
    extractBatch files fs = [] := by
  rw [List.eq_nil_iff_forall_not_mem]
  intro x hx
  obtain ⟨hc1, hc2, hc3, raw, hraw, hrs⟩ := (extractBatch_spec files fs).1 x hx
  apply hc3
  have := h raw hraw (by rwa [hrs])
  rwa [hrs] at this

/-! ## Detection lemmas -/

theorem mem_newDupsList {evs : List SSHEvent} {dupLines : List String} {s : String} :
    s ∈ newDupsList evs dupLines ↔
      ∃ e, e ∈ evs ∧ fmtDup e = s ∧ 2 ≤ (srcsOf evs e.fp).length ∧ s ∉ dupLines := by
  unfold newDupsList
  rw [List.mem_dedup]
  constructor
  · intro h
    obtain ⟨e, he, hfmt⟩ := List.mem_map.mp h
    obtain ⟨hev, hcond⟩ := List.mem_filter.mp he
    have hc := of_decide_eq_true hcond
    exact ⟨e, hev, hfmt, hc.1, hfmt ▸ hc.2⟩
  · rintro ⟨e, hev, hfmt, hq, hnd⟩
    exact List.mem_map.mpr
      ⟨e, List.mem_filter.mpr ⟨hev, decide_eq_true ⟨hq, hfmt ▸ hnd⟩⟩, hfmt⟩

theorem comma_cancel :
    ∀ (a b f g : List Char), (',' ∈ f → False) → (',' ∈ g → False) →
      a ++ ',' :: f = b ++ ',' :: g → f = g := by
  intro a
  induction a with
  | nil =>
    intro b f g hf hg h
    cases b with
    | nil => simpa using h
    | cons x xs =>
      exfalso
      rw [List.nil_append, List.cons_append] at h
      obtain ⟨hx, hrest⟩ := List.cons.inj h
      apply hf
      rw [hrest]
      exact List.mem_append_right _ (List.mem_cons_self _ _)
  | cons x xs ih =>
    intro b f g hf hg h
    cases b with
    | nil =>
      exfalso
      rw [List.nil_append, List.cons_append] at h
      obtain ⟨hx, hrest⟩ := List.cons.inj h.symm
      apply hg
      rw [hrest]
      exact List.mem_append_right _ (List.mem_cons_self _ _)
    | cons y ys =>
      rw [List.cons_append, List.cons_append] at h
      obtain ⟨hx, hrest⟩ := List.cons.inj h
      exact ih ys f g hf hg hrest

theorem data_append (a b : String) : (a ++ b).data = a.data ++ b.data := by
  cases a
  cases b
  rfl

theorem data_inj {a b : String} (h : a.data = b.data) : a = b := by
  cases a
  cases b
  exact congrArg String.mk h

theorem fmtDup_data (e : SSHEvent) :
    (fmtDup e).data =
      (e.src.data ++ ',' :: e.user.data ++ ',' :: e.ts.data) ++ ',' :: e.fp.data := by
  show (e.src ++ "," ++ e.user ++ "," ++ e.ts ++ "," ++ e.fp).data = _
  rw [data_append, data_append, data_append, data_append, data_append, data_append]
  simp [List.append_assoc]

/-- Two events with comma-free fingerprints and the same record line have the
same fingerprint (the fingerprint is the text after the last comma). -/
theorem fmtDup_fp_inj {e1 e2 : SSHEvent}
    (h1 : ',' ∈ e1.fp.data → False) (h2 : ',' ∈ e2.fp.data → False)
    (h : fmtDup e1 = fmtDup e2) : e1.fp = e2.fp := by
  have hd := congrArg String.data h
  rw [fmtDup_data, fmtDup_data] at hd
  exact data_inj (comma_cancel _ _ _ _ h1 h2 hd)

/-! ## Run-level equations -/

/-- What one pipeline run writes to `ssh_log`. -/
def sshAfter (files : List (List String)) (fs : FS) : List String :=
  loadContent fs.sshLog ++ sortStr (extractBatch files fs)

/-- The detection batch a pipeline run computes after extraction. -/
def dupsBatch (files : List (List String)) (fs : FS) : List String :=
  newDupsList (eventsOf (sshAfter files fs)) ((loadContent fs.dups).map pyStrip)

/-- The duplicate store after one pipeline run. -/
def dupsAfter (files : List (List String)) (fs : FS) : Option (List String) :=
  if (dupsBatch files fs).isEmpty then fs.dups
  else some (loadContent fs.dups ++ sortStr (dupsBatch files fs))

theorem runPipeline_eq (files : List (List String)) (fs : FS) :
    runPipeline files fs =
      some (⟨some (sshAfter files fs), dupsAfter files fs⟩,
        (extractBatch files fs).length, (dupsBatch files fs).length) := rfl

theorem runDetect_eq (sshLines : List String) (d : Option (List String)) :
    runDetect ⟨some sshLines, d⟩ =
      some (⟨some sshLines,
        if (newDupsList (eventsOf sshLines) ((loadContent d).map pyStrip)).isEmpty
        then d
        else some (loadContent d ++
          sortStr (newDupsList (eventsOf sshLines) ((loadContent d).map pyStrip)))⟩,
        (newDupsList (eventsOf sshLines) ((loadContent d).map pyStrip)).length) := rfl

/-! ## Further support lemmas -/

theorem map_pyStrip_fixed :
    ∀ d : List String, (∀ l ∈ d, pyStrip l = l) → d.map pyStrip = d := by
  intro d
  induction d with
  | nil => intro _; rfl
  | cons a as ih =>
    intro h
    rw [List.map_cons, h a (List.mem_cons_self a as),
      ih (fun l hl => h l (List.mem_cons_of_mem a hl))]

theorem mem_map_pyStrip_sortStr {x : String} {batch : List String}
    (hx : x ∈ batch) (hfix : pyStrip x = x) : x ∈ (sortStr batch).map pyStrip :=
  List.mem_map.mpr ⟨x, (mem_sortStr x batch).mpr hx, hfix⟩

theorem nodup_insSorted {x : String} :
    ∀ {l : List String}, x ∉ l → l.Nodup → (insSorted x l).Nodup := by
  intro l
  induction l with
  | nil => intro _ _; simp [insSorted]
  | cons y ys ih =>
    intro hx hl
    by_cases h : strLe x y = true
    · simp only [insSorted, if_pos h]
      exact List.nodup_cons.mpr ⟨hx, hl⟩
    · simp only [insSorted, if_neg h]
      refine List.nodup_cons.mpr ⟨?_, ih (fun hm => hx (List.mem_cons_of_mem y hm))
        (List.nodup_cons.mp hl).2⟩
      intro hmem
      rcases (mem_insSorted x y _).mp hmem with he | hm
      · exact hx (he ▸ List.mem_cons_self y ys)
      · exact (List.nodup_cons.mp hl).1 hm

theorem nodup_sortStr : ∀ l : List String, l.Nodup → (sortStr l).Nodup := by
  intro l
  induction l with
  | nil => intro _; simp [sortStr]
  | cons y ys ih =>
    intro h
    show (insSorted y (sortStr ys)).Nodup
    refine nodup_insSorted ?_ (ih (List.nodup_cons.mp h).2)
    intro hm
    exact (List.nodup_cons.mp h).1 ((mem_sortStr y ys).mp hm)

theorem eventsOf_mem {L : List String} {e : SSHEvent} (h : e ∈ eventsOf L) :
    ∃ l ∈ L, keyPatternMatch (pyStrip l).data = some e :=
  List.mem_filterMap.mp h

theorem eventsOf_fp_no_comma {L : List String} {e : SSHEvent}
    (h : e ∈ eventsOf L) : ',' ∈ e.fp.data → False := by
  obtain ⟨l, -, hp⟩ := eventsOf_mem h
  exact fun hc => absurd hc (keyPatternMatch_fp hp).2

theorem mem_seenAuthAdd_self (sa : List String) (s : String) :
    s ∈ seenAuthAdd sa s := by
  unfold seenAuthAdd
  by_cases h : s ∈ sa
  · rwa [if_pos h]
  · rw [if_neg h]
    exact List.mem_append_right _ (List.mem_cons_self _ _)

theorem seenAuthAdd_of_mem {sa : List String} {s : String} (h : s ∈ sa) :
    seenAuthAdd sa s = sa := by
  unfold seenAuthAdd
  rw [if_pos h]

/-! ## Concrete scenario inputs -/

/-- A line whose parsed source address begins with a tab: `[^ ]+` admits the
tab, but `str.strip()` removes it when the stored record is re-loaded. -/
def lineTab1 : String :=
  "T1 h sshd[1]: Accepted publickey for u from \t9.9.9.9 port 22 ssh2: X SHA256:k"

def lineTab2 : String :=
  "T2 h sshd[2]: Accepted publickey for u from 8.8.8.8 port 22 ssh2: X SHA256:k"

/-- The state after one pipeline run on the tab input from empty stores. -/
def fsTab1 : FS :=
  ⟨some [lineTab1, lineTab2],
   some ["\t9.9.9.9,u,T1,SHA256:k", "8.8.8.8,u,T2,SHA256:k"]⟩

/-- The state after a second pipeline run on the unchanged tab input. -/
def fsTab2 : FS :=
  ⟨some [lineTab1, lineTab2],
   some ["\t9.9.9.9,u,T1,SHA256:k", "8.8.8.8,u,T2,SHA256:k",
         "\t9.9.9.9,u,T1,SHA256:k"]⟩

def lineMD5 : String :=
  "2025-06-27T18:05:53 host sshd[296384]: Accepted publickey for jay from 127.0.0.1 port 41420 ssh2: ED25519 MD5:70DIz9llHmJm"

def lineBad : String :=
  "h sshd[1]: Failed password for root from 1.2.3.4 port 22 ssh2"

/-! ## Claims -/

/-- C3: end-to-end scenario A — from absent stores, ingesting the alpha and
beta files puts both lines in `ssh_log` and produces exactly the two expected
duplicate records, in this order, with both reported counts equal to 2. -/
theorem c3_scenario_a :
    runPipeline [[lineAlpha], [lineBeta]] ⟨none, none⟩ =
      some (⟨some [lineAlpha, lineBeta],
             some ["10.0.0.1,jdoe,2025-01-01T00:00:00,SHA256:AAA",
                   "10.0.0.2,jdoe,2025-01-01T00:01:00,SHA256:AAA"]⟩, 2, 2) := by
  rfl

/-- C4 counterexample: with input file `["b sshd x", "a sshd y"]` the store
ends up `["a sshd y", "b sshd x"]` — each run's batch is written in sorted
order, not in the first-encountered order `["b sshd x", "a sshd y"]`. -/
theorem c4_counterexample :
    (runExtract [["b sshd x", "a sshd y"]] ⟨none, none⟩).1.sshLog =
        some ["a sshd y", "b sshd x"] ∧
      ("a sshd y" :: "b sshd x" :: [] : List String) ≠ ["b sshd x", "a sshd y"] := by
  exact ⟨rfl, by decide⟩

/-- C4 (amended): `ssh_log` receives the whitespace-stripped form of every raw
input line containing `sshd`; each run appends its batch of previously-unseen
lines after the existing content, but **sorted lexicographically**, not in
encounter order; appended lines carry the marker and are strip-fixed. -/
theorem c4_amended (files : List (List String)) (fs : FS) :
    (runExtract files fs).1.sshLog =
        some (loadContent fs.sshLog ++ sortStr (extractBatch files fs)) ∧
      (sortStr (extractBatch files fs)).Chain' (fun a b => strLe a b = true) ∧
      (∀ raw ∈ allLines files, containsSshd (pyStrip raw) = true →
        pyStrip raw ∈
          ((loadContent fs.sshLog ++ sortStr (extractBatch files fs)).map pyStrip)) ∧
      (∀ x ∈ extractBatch files fs, containsSshd x = true ∧ pyStrip x = x) := by
  refine ⟨rfl, chain'_sortStr _, ?_, ?_⟩
  · intro raw hraw hmark
    have h := (extractBatch_spec files fs).2 raw hraw hmark
    rw [List.map_append]
    rcases List.mem_append.mp h with h | h
    · exact List.mem_append_left _ h
    · have hfix := ((extractBatch_spec files fs).1 _ h).2.1
      exact List.mem_append_right _ (mem_map_pyStrip_sortStr h hfix)
  · intro x hx
    exact ⟨((extractBatch_spec files fs).1 x hx).1, ((extractBatch_spec files fs).1 x hx).2.1⟩

/-- C4 witness: instantiating the amended claim on the concrete out-of-order
input shows the stripped marker line is in the store image afterwards. -/
theorem c4_witness :
    pyStrip " b sshd x " ∈
      ((loadContent (⟨none, none⟩ : FS).sshLog ++
        sortStr (extractBatch [[" b sshd x ", "a sshd y"]] ⟨none, none⟩)).map pyStrip) :=
  (c4_amended [[" b sshd x ", "a sshd y"]] ⟨none, none⟩).2.2.1 " b sshd x "
    (by simp [allLines]) (by decide)

/-- C6 counterexample: a line that carries the `sshd` marker but has no valid
accepted-publickey clause produces no event, yet it *does* appear in
`ssh_log`, contradicting the claim that it "never appears in ssh_log". -/
theorem c6_counterexample :
    containsSshd (pyStrip lineBad) = true ∧
      keyPatternMatch (pyStrip lineBad).data = none ∧
      (runExtract [[lineBad]] ⟨none, none⟩).1.sshLog = some [lineBad] := by
  exact ⟨by decide, by decide, rfl⟩

/-- C6 (amended): a line lacking the `sshd` marker never produces an event and
is never added to `ssh_log`; a line that fails the extraction pattern
contributes no event to the index (but if it carries the marker it *is* copied
to `ssh_log`, see the counterexample). -/
theorem c6_amended :
    (∀ l : String, containsSshd (pyStrip l) = false →
      keyPatternMatch (pyStrip l).data = none ∧
        ∀ (files : List (List String)) (fs : FS), pyStrip l ∉ extractBatch files fs) ∧
      (∀ (l : String) (rest : List String), keyPatternMatch (pyStrip l).data = none →
        eventsOf (l :: rest) = eventsOf rest) := by
  constructor
  · intro l hmark
    constructor
    · cases hk : keyPatternMatch (pyStrip l).data with
      | none => rfl
      | some e =>
        have := keyPatternMatch_containsSshd hk
        rw [this] at hmark
        cases hmark
    · intro files fs hmem
      have := ((extractBatch_spec files fs).1 _ hmem).1
      obtain ⟨-, hfix, -, raw, -, hraw⟩ := (extractBatch_spec files fs).1 _ hmem
      rw [this] at hmark
      cases hmark
  · intro l rest h
    show List.filterMap _ (l :: rest) = List.filterMap _ rest
    rw [List.filterMap_cons, h]

/-- C6 witness: the amended claim at a marker-free line. -/
theorem c6_witness :
    keyPatternMatch (pyStrip "nothing here").data = none ∧
      pyStrip "nothing here" ∉ extractBatch [["nothing here"]] ⟨none, none⟩ :=
  ⟨(c6_amended.1 "nothing here" (by decide)).1,
   (c6_amended.1 "nothing here" (by decide)).2 [["nothing here"]] ⟨none, none⟩⟩

/-- C7 counterexample: a detection-only run against an absent `ssh_log`
raises (`none`), and a successful detection-only run that finds nothing leaves
an absent `private_key_dups` absent — neither store is "created empty before
first read" by the detector. -/
theorem c7_counterexample :
    runDetect (⟨none, none⟩ : FS) = none ∧
      runDetect (⟨some [], none⟩ : FS) = some (⟨some [], none⟩, 0) := by
  exact ⟨rfl, rfl⟩

/-- C7 (amended): the extractor creates `ssh_log` (empty if absent) before its
first read, so a full pipeline run — including the first — always completes;
the detector treats an absent `private_key_dups` as empty and only creates it
when it appends a nonempty batch; but a detection-only run with `ssh_log`
absent fails with a missing-file error (see the counterexample). -/
theorem c7_amended (files : List (List String)) (fs : FS) :
    (∃ c, (runExtract files fs).1.sshLog = some c) ∧
      (runPipeline files fs).isSome = true ∧
      (∀ sshLines : List String,
        runDetect ⟨some sshLines, none⟩ =
          some (⟨some sshLines,
            if (newDupsList (eventsOf sshLines) []).isEmpty then none
            else some (sortStr (newDupsList (eventsOf sshLines) []))⟩,
            (newDupsList (eventsOf sshLines) []).length)) := by
  refine ⟨⟨_, rfl⟩, ?_, ?_⟩
  · rw [runPipeline_eq]; rfl
  · intro sshLines
    rfl

/-- C7 witness: the amended claim at the empty directory and absent stores. -/
theorem c7_witness :
    (runPipeline ([] : List (List String)) (⟨none, none⟩ : FS)).isSome = true :=
  (c7_amended [] ⟨none, none⟩).2.1

/-- Helper: the positive branch of `processLine`. -/
theorem processLine_pos {st : ExtractState} {raw : String}
    (h : containsSshd (pyStrip raw) = true ∧ pyStrip raw ∉ st.seenSsh) :
    processLine st raw =
      ⟨seenAuthAdd st.seenAuth (pyStrip raw), st.seenSsh ++ [pyStrip raw],
        st.newSsh ++ [pyStrip raw]⟩ := by
  simp only [processLine, if_pos h]

/-- Helper: the negative branch of `processLine`. -/
theorem processLine_neg {st : ExtractState} {raw : String}
    (h : ¬ (containsSshd (pyStrip raw) = true ∧ pyStrip raw ∉ st.seenSsh)) :
    processLine st raw =
      ⟨seenAuthAdd st.seenAuth (pyStrip raw), st.seenSsh, st.newSsh⟩ := by
  simp only [processLine, if_neg h]

/-- The state after scenario A's first pipeline run. -/
def fsAlphaBeta : FS :=
  ⟨some [lineAlpha, lineBeta],
   some ["10.0.0.1,jdoe,2025-01-01T00:00:00,SHA256:AAA",
         "10.0.0.2,jdoe,2025-01-01T00:01:00,SHA256:AAA"]⟩

/-- A third reachable event line: the tab-source record's *stripped* form as a
genuinely distinct source, with the same user and timestamp. -/
def lineC1x : String :=
  "T1 h sshd[3]: Accepted publickey for u from 9.9.9.9 port 22 ssh2: X SHA256:k"

/-- The state after detection runs against the three-line `ssh_log` and the
tab-record store. -/
def fsC1after : FS :=
  ⟨some [lineTab1, lineTab2, lineC1x],
   some ["\t9.9.9.9,u,T1,SHA256:k", "8.8.8.8,u,T2,SHA256:k",
         "\t9.9.9.9,u,T1,SHA256:k"]⟩

/-- C1 counterexample: starting from the store the first tab run itself wrote
(`fsTab1`), `ssh_log` gains an event with the distinct source `9.9.9.9`
(the stripped form of the stored tab record's source), same user, timestamp
and fingerprint.  The fingerprint now spans three distinct sources and
`(9.9.9.9, u, T1)` is a distinct triple, yet after the detection run the store
contains no line `9.9.9.9,u,T1,SHA256:k`: `log_dups` tests the record against
the *stripped* stored lines, and the stripped tab record shadows it. -/
theorem c1_counterexample :
    (⟨"T1", "u", "9.9.9.9", "SHA256:k"⟩ : SSHEvent) ∈
        eventsOf [lineTab1, lineTab2, lineC1x] ∧
      2 ≤ (srcsOf (eventsOf [lineTab1, lineTab2, lineC1x]) "SHA256:k").length ∧
      runPipeline [[lineTab1, lineTab2, lineC1x]] fsTab1 = some (fsC1after, 1, 1) ∧
      fmtDup ⟨"T1", "u", "9.9.9.9", "SHA256:k"⟩ ∉ loadContent fsC1after.dups := by
  exact ⟨by decide, by decide, rfl, by decide⟩

/-- C1 (amended): after a detection run, for every event whose fingerprint was
used from at least two distinct sources, the duplicate store contains that
event's record line *up to whitespace stripping* — and verbatim whenever every
stored line equals its own stripped form, as in every store free of records
whose source begins with non-space whitespace; every emitted record comes from
an event with a multi-source fingerprint; and no record of a single-source
fingerprint is ever emitted. -/
theorem c1_amended (sshLines : List String) (d : Option (List String))
    (fs2 : FS) (n : Nat)
    (hrun : runDetect ⟨some sshLines, d⟩ = some (fs2, n)) :
    (∀ e ∈ eventsOf sshLines, 2 ≤ (srcsOf (eventsOf sshLines) e.fp).length →
        pyStrip (fmtDup e) ∈ (loadContent fs2.dups).map pyStrip) ∧
      ((∀ l ∈ loadContent d, pyStrip l = l) →
        ∀ e ∈ eventsOf sshLines, 2 ≤ (srcsOf (eventsOf sshLines) e.fp).length →
          fmtDup e ∈ loadContent fs2.dups) ∧
      (∀ s ∈ newDupsList (eventsOf sshLines) ((loadContent d).map pyStrip),
        ∃ e ∈ eventsOf sshLines, s = fmtDup e ∧
          2 ≤ (srcsOf (eventsOf sshLines) e.fp).length) ∧
      (∀ e ∈ eventsOf sshLines, (srcsOf (eventsOf sshLines) e.fp).length ≤ 1 →
        fmtDup e ∉ newDupsList (eventsOf sshLines) ((loadContent d).map pyStrip)) := by
  rw [runDetect_eq] at hrun
  have hfs : (⟨some sshLines,
      if (newDupsList (eventsOf sshLines) ((loadContent d).map pyStrip)).isEmpty
      then d
      else some (loadContent d ++
        sortStr (newDupsList (eventsOf sshLines) ((loadContent d).map pyStrip)))⟩ : FS)
      = fs2 := congrArg Prod.fst (Option.some.inj hrun)
  have hsub : ∀ l ∈ loadContent d, l ∈ loadContent fs2.dups := by
    intro l hl
    rw [← hfs]
    show l ∈ loadContent
      (if (newDupsList (eventsOf sshLines) ((loadContent d).map pyStrip)).isEmpty
       then d
       else some (loadContent d ++
         sortStr (newDupsList (eventsOf sshLines) ((loadContent d).map pyStrip))))
    by_cases hemp :
        (newDupsList (eventsOf sshLines) ((loadContent d).map pyStrip)).isEmpty = true
    · rw [if_pos hemp]; exact hl
    · rw [if_neg hemp]; exact List.mem_append_left _ hl
  have hnew : ∀ s ∈ newDupsList (eventsOf sshLines) ((loadContent d).map pyStrip),
      s ∈ loadContent fs2.dups := by
    intro s hs
    rw [← hfs]
    have hemp :
        ¬ (newDupsList (eventsOf sshLines) ((loadContent d).map pyStrip)).isEmpty = true :=
      fun hx => List.ne_nil_of_mem hs (List.isEmpty_iff.mp hx)
    show s ∈ loadContent
      (if (newDupsList (eventsOf sshLines) ((loadContent d).map pyStrip)).isEmpty
       then d
       else some (loadContent d ++
         sortStr (newDupsList (eventsOf sshLines) ((loadContent d).map pyStrip))))
    rw [if_neg hemp]
    exact List.mem_append_right _ ((mem_sortStr _ _).mpr hs)
  refine ⟨?_, ?_, ?_, ?_⟩
  · intro e he hq
    by_cases hmem : fmtDup e ∈ (loadContent d).map pyStrip
    · obtain ⟨l, hl, hpl⟩ := List.mem_map.mp hmem
      rw [← hpl, pyStrip_idem]
      exact List.mem_map.mpr ⟨l, hsub l hl, rfl⟩
    · have hin : fmtDup e ∈ newDupsList (eventsOf sshLines) ((loadContent d).map pyStrip) :=
        mem_newDupsList.mpr ⟨e, he, rfl, hq, hmem⟩
      exact List.mem_map.mpr ⟨fmtDup e, hnew _ hin, rfl⟩
  · intro hwf e he hq
    have hmap : (loadContent d).map pyStrip = loadContent d := map_pyStrip_fixed _ hwf
    by_cases hmem : fmtDup e ∈ loadContent d
    · exact hsub _ hmem
    · exact hnew _ (mem_newDupsList.mpr ⟨e, he, rfl, hq, by rw [hmap]; exact hmem⟩)
  · intro s hs
    obtain ⟨e, he, hf, hq, -⟩ := mem_newDupsList.mp hs
    exact ⟨e, he, hf.symm, hq⟩
  · intro e he hle hmem
    obtain ⟨e2, he2, hf2, hq2, -⟩ := mem_newDupsList.mp hmem
    have hfp : e2.fp = e.fp :=
      fmtDup_fp_inj (eventsOf_fp_no_comma he2) (eventsOf_fp_no_comma he) hf2
    rw [hfp] at hq2
    omega

/-- C1 witness: scenario A's alpha event record is in the store, verbatim,
after a detection run against the extracted `ssh_log` and an absent (hence
trivially strip-fixed) duplicate store. -/
theorem c1_witness :
    fmtDup ⟨"2025-01-01T00:00:00", "jdoe", "10.0.0.1", "SHA256:AAA"⟩ ∈
      loadContent fsAlphaBeta.dups :=
  (c1_amended [lineAlpha, lineBeta] none fsAlphaBeta 2 rfl).2.1
    (by intro l hl; cases hl)
    ⟨"2025-01-01T00:00:00", "jdoe", "10.0.0.1", "SHA256:AAA"⟩
    (by decide) (by decide)

/-- C2 counterexample: with a source address that begins with a tab, the first
run appends two records, and the second run against the unchanged input
appends one more line to `private_key_dups` (count 1, not 0): the stored line
is stripped on re-load, so it no longer matches the freshly formatted record. -/
theorem c2_counterexample :
    runPipeline [[lineTab1, lineTab2]] ⟨none, none⟩ = some (fsTab1, 2, 2) ∧
      runPipeline [[lineTab1, lineTab2]] fsTab1 = some (fsTab2, 0, 1) := by
  exact ⟨rfl, rfl⟩

/-- C2 (amended): a second pipeline run on an unchanged input directory always
appends nothing to `ssh_log` and reports 0 new lines; if additionally every
event record line equals its stripped form (true unless a parsed source
address starts with non-space whitespace, e.g. a tab), the second run also
appends nothing to `private_key_dups`, reports 0, and leaves the state fixed. -/
theorem c2_amended (files : List (List String)) (fs fs1 : FS) (k1 k2 : Nat)
    (h : runPipeline files fs = some (fs1, k1, k2))
    (hfix : ∀ e ∈ eventsOf (loadContent fs1.sshLog), pyStrip (fmtDup e) = fmtDup e) :
    runPipeline files fs1 = some (fs1, 0, 0) := by
  rw [runPipeline_eq] at h
  have hfs : (⟨some (sshAfter files fs), dupsAfter files fs⟩ : FS) = fs1 :=
    congrArg Prod.fst (Option.some.inj h)
  subst hfs
  have hbatch : extractBatch files ⟨some (sshAfter files fs), dupsAfter files fs⟩ = [] := by
    apply extractBatch_nil
    intro raw hraw hmark
    show pyStrip raw ∈ (sshAfter files fs).map pyStrip
    have h2 := (extractBatch_spec files fs).2 raw hraw hmark
    unfold sshAfter
    rw [List.map_append]
    rcases List.mem_append.mp h2 with h2 | h2
    · exact List.mem_append_left _ h2
    · exact List.mem_append_right _
        (mem_map_pyStrip_sortStr h2 ((extractBatch_spec files fs).1 _ h2).2.1)
  have hssh2 : sshAfter files ⟨some (sshAfter files fs), dupsAfter files fs⟩ =
      sshAfter files fs := by
    show loadContent (some (sshAfter files fs)) ++
        sortStr (extractBatch files ⟨some (sshAfter files fs), dupsAfter files fs⟩) =
      sshAfter files fs
    rw [hbatch]
    exact List.append_nil _
  have hnd2 : dupsBatch files ⟨some (sshAfter files fs), dupsAfter files fs⟩ = [] := by
    rw [List.eq_nil_iff_forall_not_mem]
    intro s hs
    unfold dupsBatch at hs
    rw [hssh2] at hs
    obtain ⟨e, he, hfmt, hq, hnot⟩ := mem_newDupsList.mp hs
    apply hnot
    show s ∈ (loadContent (dupsAfter files fs)).map pyStrip
    unfold dupsAfter
    by_cases hemp : (dupsBatch files fs).isEmpty = true
    · rw [if_pos hemp]
      have h0 : dupsBatch files fs = [] := List.isEmpty_iff.mp hemp
      by_contra hno
      have hs1 : s ∈ dupsBatch files fs :=
        mem_newDupsList.mpr ⟨e, he, hfmt, hq, hno⟩
      rw [h0] at hs1
      cases hs1
    · rw [if_neg hemp]
      show s ∈ (loadContent fs.dups ++ sortStr (dupsBatch files fs)).map pyStrip
      rw [List.map_append]
      by_cases hd0 : s ∈ (loadContent fs.dups).map pyStrip
      · exact List.mem_append_left _ hd0
      · have hs1 : s ∈ dupsBatch files fs :=
          mem_newDupsList.mpr ⟨e, he, hfmt, hq, hd0⟩
        have hfixs : pyStrip s = s := by
          rw [← hfmt]
          exact hfix e he
        exact List.mem_append_right _ (mem_map_pyStrip_sortStr hs1 hfixs)
  have hda : dupsAfter files ⟨some (sshAfter files fs), dupsAfter files fs⟩ =
      dupsAfter files fs := by
    show (if (dupsBatch files ⟨some (sshAfter files fs), dupsAfter files fs⟩).isEmpty
        then (⟨some (sshAfter files fs), dupsAfter files fs⟩ : FS).dups
        else some (loadContent (⟨some (sshAfter files fs), dupsAfter files fs⟩ : FS).dups ++
          sortStr (dupsBatch files ⟨some (sshAfter files fs), dupsAfter files fs⟩))) =
      dupsAfter files fs
    rw [hnd2]
    rfl
  rw [runPipeline_eq, hssh2, hda, hbatch, hnd2]
  rfl

/-- C2 witness: scenario A run twice — the second run is a fixed point with
both counts 0. -/
theorem c2_witness :
    runPipeline [[lineAlpha], [lineBeta]] fsAlphaBeta = some (fsAlphaBeta, 0, 0) :=
  c2_amended [[lineAlpha], [lineBeta]] ⟨none, none⟩ fsAlphaBeta 2 2 rfl (by decide)

/-- C5 counterexample: the tab record's formatted line is already present,
verbatim, in the store (`fsTab1.dups`), yet the second run appends it again,
leaving two identical lines in `private_key_dups`. -/
theorem c5_counterexample :
    runPipeline [[lineTab1, lineTab2]] fsTab1 = some (fsTab2, 0, 1) ∧
      "\t9.9.9.9,u,T1,SHA256:k" ∈ loadContent fsTab1.dups ∧
      ¬ (loadContent fsTab2.dups).Nodup := by
  exact ⟨rfl, by decide, by decide⟩

/-- C5 (amended): `log_dups` appends exactly those qualifying records whose
formatted line is not already among the *stripped* stored lines, and returns
their count; when every stored line equals its stripped form, that test is
exact line membership, the appended lines are exactly the new records, and the
store never gains a duplicate line. -/
theorem c5_dedup_exact (sshLines : List String) (d0 : List String)
    (hwf : ∀ l ∈ d0, pyStrip l = l) (hnodup : d0.Nodup) :
    (∀ s : String,
      s ∈ newDupsList (eventsOf sshLines) (d0.map pyStrip) ↔
        ((∃ e ∈ eventsOf sshLines, fmtDup e = s ∧
            2 ≤ (srcsOf (eventsOf sshLines) e.fp).length) ∧ s ∉ d0)) ∧
      runDetect ⟨some sshLines, some d0⟩ =
        some (⟨some sshLines,
          if (newDupsList (eventsOf sshLines) (d0.map pyStrip)).isEmpty then some d0
          else some (d0 ++ sortStr (newDupsList (eventsOf sshLines) (d0.map pyStrip)))⟩,
          (newDupsList (eventsOf sshLines) (d0.map pyStrip)).length) ∧
      (d0 ++ sortStr (newDupsList (eventsOf sshLines) (d0.map pyStrip))).Nodup := by
  have hmap : d0.map pyStrip = d0 := map_pyStrip_fixed d0 hwf
  refine ⟨?_, ?_, ?_⟩
  · intro s
    rw [mem_newDupsList, hmap]
    constructor
    · rintro ⟨e, he, hf, hq, hn⟩
      exact ⟨⟨e, he, hf, hq⟩, hn⟩
    · rintro ⟨⟨e, he, hf, hq⟩, hn⟩
      exact ⟨e, he, hf, hq, hn⟩
  · exact runDetect_eq sshLines (some d0)
  · refine List.Nodup.append hnodup
      (nodup_sortStr _ (List.nodup_dedup _)) ?_
    intro a ha hb
    obtain ⟨e, he, hf, hq, hn⟩ := mem_newDupsList.mp ((mem_sortStr _ _).mp hb)
    rw [hmap] at hn
    exact hn ha

/-- C5 witness: with the alpha record already stored, the beta record (same
source/user/fingerprint shape, different timestamp and source) is appended. -/
theorem c5_witness :
    "10.0.0.2,jdoe,2025-01-01T00:01:00,SHA256:AAA" ∈
      newDupsList (eventsOf [lineAlpha, lineBeta])
        (["10.0.0.1,jdoe,2025-01-01T00:00:00,SHA256:AAA"].map pyStrip) :=
  ((c5_dedup_exact [lineAlpha, lineBeta]
      ["10.0.0.1,jdoe,2025-01-01T00:00:00,SHA256:AAA"] (by decide) (by decide)).1 _).mpr
    ⟨⟨⟨"2025-01-01T00:01:00", "jdoe", "10.0.0.2", "SHA256:AAA"⟩,
      by decide, by decide, by decide⟩, by decide⟩

/-- C8: one pipeline run only appends — the prior `ssh_log` content is a
prefix of the new content, the prior duplicate-store content is a prefix of
the new content, both loaded seen-sets only grow, and the in-memory
`seen_auth_entries` set only grows during the run. -/
theorem c8_monotonic (files : List (List String)) (fs fs2 : FS) (k1 k2 : Nat)
    (h : runPipeline files fs = some (fs2, k1, k2)) :
    (∃ b1, fs2.sshLog = some (loadContent fs.sshLog ++ b1)) ∧
      (∃ b2, loadContent fs2.dups = loadContent fs.dups ++ b2) ∧
      (∀ x ∈ (loadContent fs.sshLog).map pyStrip,
        x ∈ (loadContent fs2.sshLog).map pyStrip) ∧
      (∀ x ∈ (loadContent fs.dups).map pyStrip,
        x ∈ (loadContent fs2.dups).map pyStrip) ∧
      (∃ da, ((allLines files).foldl processLine (initState files fs)).seenAuth =
        (initState files fs).seenAuth ++ da) := by
  rw [runPipeline_eq] at h
  have hfs : (⟨some (sshAfter files fs), dupsAfter files fs⟩ : FS) = fs2 :=
    congrArg Prod.fst (Option.some.inj h)
  subst hfs
  refine ⟨⟨sortStr (extractBatch files fs), rfl⟩, ?_, ?_, ?_,
    foldProcess_seenAuth _ _⟩
  · show ∃ b2, loadContent (dupsAfter files fs) = loadContent fs.dups ++ b2
    unfold dupsAfter
    by_cases hemp : (dupsBatch files fs).isEmpty = true
    · rw [if_pos hemp]
      exact ⟨[], (List.append_nil _).symm⟩
    · rw [if_neg hemp]
      exact ⟨sortStr (dupsBatch files fs), rfl⟩
  · intro x hx
    show x ∈ (loadContent fs.sshLog ++ sortStr (extractBatch files fs)).map pyStrip
    rw [List.map_append]
    exact List.mem_append_left _ hx
  · intro x hx
    show x ∈ (loadContent (dupsAfter files fs)).map pyStrip
    unfold dupsAfter
    by_cases hemp : (dupsBatch files fs).isEmpty = true
    · rw [if_pos hemp]
      exact hx
    · rw [if_neg hemp]
      show x ∈ (loadContent fs.dups ++ sortStr (dupsBatch files fs)).map pyStrip
      rw [List.map_append]
      exact List.mem_append_left _ hx

/-- C8 witness: the prefix property at a concrete first run. -/
theorem c8_witness :
    ∃ b1, (⟨some [lineAlpha], none⟩ : FS).sshLog =
      some (loadContent (⟨none, none⟩ : FS).sshLog ++ b1) :=
  (c8_monotonic [[lineAlpha]] ⟨none, none⟩ ⟨some [lineAlpha], none⟩ 1 0 rfl).1

/-- C9: only `SHA256:`-prefixed fingerprints are recognized — every parsed
event's fingerprint starts with `SHA256:`; every marker-carrying input line
(including one whose fingerprint has another prefix, e.g. `MD5:`) is copied
to `ssh_log`; every emitted duplicate record comes from an event with a
`SHA256:`-prefixed fingerprint; and the `MD5:` example line parses to no
event at all. -/
theorem c9_sha256_only :
    (∀ (l : List Char) (e : SSHEvent), keyPatternMatch l = some e →
        startsL "SHA256:".data e.fp.data = true) ∧
      (∀ (raw : String) (files : List (List String)) (fs : FS),
        raw ∈ allLines files → containsSshd (pyStrip raw) = true →
        pyStrip raw ∈ (sshAfter files fs).map pyStrip) ∧
      (∀ (sshLines dupLines : List String) (s : String),
        s ∈ newDupsList (eventsOf sshLines) dupLines →
        ∃ e ∈ eventsOf sshLines, s = fmtDup e ∧
          startsL "SHA256:".data e.fp.data = true) ∧
      (keyPatternMatch (pyStrip lineMD5).data = none ∧ eventsOf [lineMD5] = []) := by
  refine ⟨?_, ?_, ?_, by decide, by decide⟩
  · intro l e h
    exact (keyPatternMatch_fp h).1
  · intro raw files fs hraw hmark
    have h2 := (extractBatch_spec files fs).2 raw hraw hmark
    unfold sshAfter
    rw [List.map_append]
    rcases List.mem_append.mp h2 with h2 | h2
    · exact List.mem_append_left _ h2
    · exact List.mem_append_right _
        (mem_map_pyStrip_sortStr h2 ((extractBatch_spec files fs).1 _ h2).2.1)
  · intro sshLines dupLines s hs
    obtain ⟨e, he, hf, hq, -⟩ := mem_newDupsList.mp hs
    obtain ⟨l, -, hp⟩ := eventsOf_mem he
    exact ⟨e, he, hf.symm, (keyPatternMatch_fp hp).1⟩

/-- C9 witness: the MD5 line is copied into the `ssh_log` image. -/
theorem c9_witness :
    pyStrip lineMD5 ∈ (sshAfter [[lineMD5]] ⟨none, none⟩).map pyStrip :=
  c9_sha256_only.2.1 lineMD5 [[lineMD5]] ⟨none, none⟩ (by simp [allLines]) (by decide)

/-- C10: line identity is the stripped text — processing a line is processing
its stripped form; a second raw line with the same stripped form changes
nothing; and every line the extractor emits equals its own stripped form. -/
theorem c10_strip_identity :
    (∀ (st : ExtractState) (l1 l2 : String), pyStrip l1 = pyStrip l2 →
        processLine (processLine st l1) l2 = processLine st l1) ∧
      (∀ (st : ExtractState) (raw : String),
        processLine st raw = processLine st (pyStrip raw)) ∧
      (∀ (files : List (List String)) (fs : FS),
        ∀ x ∈ extractBatch files fs, pyStrip x = x) := by
  refine ⟨?_, ?_, ?_⟩
  · intro st l1 l2 heq
    by_cases hc : containsSshd (pyStrip l1) = true ∧ pyStrip l1 ∉ st.seenSsh
    · rw [processLine_pos hc]
      have hmem : pyStrip l2 ∈ st.seenSsh ++ [pyStrip l1] := by
        rw [← heq]
        exact List.mem_append_right _ (List.mem_cons_self _ _)
      rw [processLine_neg (fun hcon => hcon.2 hmem)]
      show (⟨seenAuthAdd (seenAuthAdd st.seenAuth (pyStrip l1)) (pyStrip l2), _, _⟩ :
        ExtractState) = _
      rw [← heq, seenAuthAdd_of_mem (mem_seenAuthAdd_self st.seenAuth (pyStrip l1))]
    · rw [processLine_neg hc]
      have hnc : ¬ (containsSshd (pyStrip l2) = true ∧ pyStrip l2 ∉
          (⟨seenAuthAdd st.seenAuth (pyStrip l1), st.seenSsh, st.newSsh⟩ :
            ExtractState).seenSsh) := by
        rw [← heq]
        exact hc
      rw [processLine_neg hnc]
      show (⟨seenAuthAdd (seenAuthAdd st.seenAuth (pyStrip l1)) (pyStrip l2), _, _⟩ :
        ExtractState) = _
      rw [← heq, seenAuthAdd_of_mem (mem_seenAuthAdd_self st.seenAuth (pyStrip l1))]
  · intro st raw
    simp only [processLine, pyStrip_idem]
  · intro files fs x hx
    exact ((extractBatch_spec files fs).1 x hx).2.1

/-- C10 witness: a whitespace-padded copy of an already-processed line leaves
the extraction state unchanged. -/
theorem c10_witness :
    processLine (processLine ⟨[], [], []⟩ "  a sshd ") "a sshd" =
      processLine ⟨[], [], []⟩ "  a sshd " :=
  c10_strip_identity.1 ⟨[], [], []⟩ "  a sshd " "a sshd" (by decide)

end Authlog
